import Mathlib

/-!
Verification of the configuration subsystem of the practices MCP server
(`src/mcp_server_practices/config/`): the deep-merge engine
(`hierarchy.py`), the project-type detector (`detector.py`), the
hierarchical config locator (`hierarchy.py`), the semantic validator
(`validator.py`), the schema model validators (`schema.py`) and the
loader (`loader.py`).

Python values appearing in configuration mappings are embedded as the
inductive `Val`; Python `dict`s are association lists with unique keys
(uniqueness is the `wfObj` representation invariant), where updating an
existing key keeps its position and inserting a new key appends at the
end, as CPython dicts do.
-/

namespace Practices

/-- A Python value as it occurs in a parsed YAML configuration:
scalars, lists, and nested dictionaries (modelled as association
lists in insertion order). -/
inductive Val where
  | int : Int → Val
  | str : String → Val
  | bool : Bool → Val
  | none : Val
  | list : List Val → Val
  | dict : List (String × Val) → Val

/-- Association list of a Python dict: entries in insertion order. -/
abbrev Obj := List (String × Val)

/-- `d[key]` / `key in d`: first (and, for a well-formed dict, only)
binding of `key`. -/
def lookupV : Obj → String → Option Val
  | [], _ => Option.none
  | (k, v) :: rest, key => if k = key then some v else lookupV rest key

/-- `d[key] = v`: replace the value of an existing key in place,
otherwise append the new binding at the end (CPython dict semantics). -/
def setKeyV : Obj → String → Val → Obj
  | [], key, v => [(key, v)]
  | (k, w) :: rest, key, v =>
    if k = key then (k, v) :: rest else (k, w) :: setKeyV rest key v

/-- `key in d` for an association list. -/
def hasKeyV (d : Obj) (key : String) : Bool :=
  d.any (fun p => p.1 = key)

/-- `_merge_dicts(base, overlay)` from `config/hierarchy.py` (lines
104-121), as explicit state passing of the in-place update: for each
`key, value` in `overlay.items()`, if `key in base` and both
`base[key]` and `value` are dicts, merge recursively; otherwise
`base[key] = value`. Returns the final state of `base`. -/
def mergeDicts : Obj → Obj → Obj
  | base, [] => base
  | base, (key, value) :: rest =>
    match lookupV base key, value with
    | some (Val.dict bd), Val.dict od =>
      mergeDicts (setKeyV base key (Val.dict (mergeDicts bd od))) rest
    | _, _ => mergeDicts (setKeyV base key value) rest
termination_by _ overlay => sizeOf overlay

/-- `merge_configs(configs)` from `config/hierarchy.py` (lines 81-101):
empty input yields `{}`; otherwise start from (a copy of) the first
element and fold `_merge_dicts` over the rest.  This computes the
*value* of the result; object identity and aliasing are treated in the
heap model below. -/
def merge_configs : List Obj → Obj
  | [] => []
  | c :: rest => rest.foldl mergeDicts c

mutual
/-- Representation invariant of embedded Python values: every dict
(at any depth) has pairwise-distinct keys. -/
def wfVal : Val → Bool
  | Val.dict d => wfObj d
  | Val.list l => wfValList l
  | _ => true

def wfValList : List Val → Bool
  | [] => true
  | v :: rest => wfVal v && wfValList rest

def wfObj : Obj → Bool
  | [] => true
  | (k, v) :: rest => !(hasKeyV rest k) && wfVal v && wfObj rest
end

/-- Keys with no binding look up to `none`. -/
theorem lookupV_eq_none_of_not_hasKey (d : Obj) (key : String)
    (h : hasKeyV d key = false) : lookupV d key = Option.none := by
  induction d with
  | nil => rfl
  | cons p rest ih =>
    obtain ⟨k, v⟩ := p
    simp only [hasKeyV, List.any_cons, Bool.or_eq_false_iff,
      decide_eq_false_iff_not] at h
    simp only [lookupV]
    rw [if_neg h.1]
    exact ih (by simpa [hasKeyV] using h.2)

/-- A binding that is present in a dict with distinct keys is what
lookup returns. -/
theorem lookupV_of_mem_of_wf (d : Obj) (k : String) (v : Val)
    (hwf : wfObj d = true) (hmem : (k, v) ∈ d) : lookupV d k = some v := by
  induction d with
  | nil => simp at hmem
  | cons p rest ih =>
    obtain ⟨k0, v0⟩ := p
    simp only [wfObj, Bool.and_eq_true, Bool.not_eq_true'] at hwf
    rcases List.mem_cons.mp hmem with h | h
    · injection h with h1 h2
      subst h1
      subst h2
      simp [lookupV]
    · by_cases hk : k0 = k
      · subst hk
        exfalso
        have : hasKeyV rest k0 = true := by
          simp only [hasKeyV, List.any_eq_true]
          exact ⟨(k0, v), h, by simp⟩
        rw [this] at hwf
        simp at hwf
      · simp only [lookupV]
        rw [if_neg hk]
        exact ih hwf.2 h

/-- Values stored in a well-formed dict are themselves well-formed. -/
theorem wfVal_of_mem_of_wf (d : Obj) (k : String) (v : Val)
    (hwf : wfObj d = true) (hmem : (k, v) ∈ d) : wfVal v = true := by
  induction d with
  | nil => simp at hmem
  | cons p rest ih =>
    obtain ⟨k0, v0⟩ := p
    simp only [wfObj, Bool.and_eq_true] at hwf
    rcases List.mem_cons.mp hmem with h | h
    · injection h with h1 h2
      exact h2 ▸ hwf.1.2
    · exact ih hwf.2 h

/-- Updating a key to the value it already has is a no-op. -/
theorem setKeyV_eq_self_of_lookup (d : Obj) (k : String) (v : Val)
    (h : lookupV d k = some v) : setKeyV d k v = d := by
  induction d with
  | nil => simp [lookupV] at h
  | cons p rest ih =>
    obtain ⟨k0, v0⟩ := p
    simp only [lookupV] at h
    by_cases hk : k0 = k
    · rw [if_pos hk] at h
      injection h with h
      simp [setKeyV, if_pos hk, h]
    · rw [if_neg hk] at h
      simp [setKeyV, if_neg hk, ih h]

/-- Lookup after setting the same key. -/
theorem lookupV_setKeyV_self (d : Obj) (k : String) (v : Val) :
    lookupV (setKeyV d k v) k = some v := by
  induction d with
  | nil => simp [setKeyV, lookupV]
  | cons p rest ih =>
    obtain ⟨k0, v0⟩ := p
    by_cases hk : k0 = k
    · simp [setKeyV, if_pos hk, lookupV, hk]
    · simp [setKeyV, if_neg hk, lookupV, if_neg hk, ih]

/-- Lookup after setting a different key. -/
theorem lookupV_setKeyV_ne (d : Obj) (k key : String) (v : Val)
    (h : key ≠ k) : lookupV (setKeyV d key v) k = lookupV d k := by
  induction d with
  | nil => simp [setKeyV, lookupV, if_neg h]
  | cons p rest ih =>
    obtain ⟨k0, v0⟩ := p
    simp only [setKeyV]
    by_cases hk : k0 = key
    · rw [if_pos hk]
      have hne : k0 ≠ k := fun hh => h (hk.symm.trans hh)
      simp only [lookupV]
      rw [if_neg hne, if_neg hne]
    · rw [if_neg hk]
      simp only [lookupV]
      by_cases hk2 : k0 = k
      · rw [if_pos hk2, if_pos hk2]
      · rw [if_neg hk2, if_neg hk2, ih]

/-- Top-level key uniqueness (the invariant CPython maintains for any
actual `dict`). -/
def noDupKeysV : Obj → Bool
  | [] => true
  | (k, _) :: rest => !(hasKeyV rest k) && noDupKeysV rest

/-- Merging a well-formed dict all of whose bindings are already
present in `base` with the same values leaves `base` unchanged. -/
theorem mergeDicts_eq_self (base overlay : Obj)
    (hwf : wfObj overlay = true)
    (hsub : ∀ k v, (k, v) ∈ overlay → lookupV base k = some v) :
    mergeDicts base overlay = base := by
  induction base, overlay using mergeDicts.induct with
  | case1 base => exact mergeDicts.eq_1 base
  | case2 base key rest bd od hlook IH1 IH2 =>
    have hhead : lookupV base key = some (Val.dict od) :=
      hsub key (Val.dict od) (List.mem_cons_self _ _)
    have hbd : bd = od := by
      rw [hlook] at hhead
      simpa using hhead
    subst hbd
    simp only [wfObj, wfVal, Bool.and_eq_true, Bool.not_eq_true'] at hwf
    have hmm : mergeDicts bd bd = bd :=
      IH1 hwf.1.2 (fun k v hm => lookupV_of_mem_of_wf bd k v hwf.1.2 hm)
    have hset : setKeyV base key (Val.dict (mergeDicts bd bd)) = base := by
      rw [hmm]
      exact setKeyV_eq_self_of_lookup base key (Val.dict bd) hhead
    rw [hset] at IH2
    rw [mergeDicts.eq_2 base key rest bd bd hlook, hset]
    exact IH2 hwf.2 (fun k v hm => hsub k v (List.mem_cons_of_mem _ hm))
  | case3 base key value rest hnot IH =>
    have hhead : lookupV base key = some value :=
      hsub key value (List.mem_cons_self _ _)
    have hset : setKeyV base key value = base :=
      setKeyV_eq_self_of_lookup base key value hhead
    simp only [wfObj, Bool.and_eq_true] at hwf
    rw [hset] at IH
    rw [mergeDicts.eq_3 base key rest value hnot, hset]
    exact IH hwf.2 (fun k v hm => hsub k v (List.mem_cons_of_mem _ hm))

/-- The per-key result of `_merge_dicts`, written out the way the spec
describes it: a key absent from the overlay keeps the base value; a key
present in the overlay takes the recursive merge when both sides are
dicts and the overlay value outright otherwise. -/
def mergeSpec (base overlay : Obj) (k : String) : Option Val :=
  match lookupV overlay k with
  | Option.none => lookupV base k
  | some v =>
    match lookupV base k, v with
    | some (Val.dict bd), Val.dict od => some (Val.dict (mergeDicts bd od))
    | _, _ => some v

/-- `_merge_dicts` realises `mergeSpec` at every key, provided the
overlay has unique keys (true of every CPython dict). -/
theorem lookupV_mergeDicts (base overlay : Obj)
    (hnd : noDupKeysV overlay = true) (k : String) :
    lookupV (mergeDicts base overlay) k = mergeSpec base overlay k := by
  induction base, overlay using mergeDicts.induct with
  | case1 base =>
    simp [mergeDicts.eq_1, mergeSpec, lookupV]
  | case2 base key rest bd od hlook IH1 IH2 =>
    simp only [noDupKeysV, Bool.and_eq_true, Bool.not_eq_true'] at hnd
    rw [mergeDicts.eq_2 base key rest bd od hlook, IH2 hnd.2]
    by_cases hk : key = k
    · subst hk
      have hrest : lookupV rest key = Option.none :=
        lookupV_eq_none_of_not_hasKey rest key hnd.1
      simp [mergeSpec, lookupV, hrest, lookupV_setKeyV_self, hlook]
    · simp [mergeSpec, lookupV, if_neg hk, lookupV_setKeyV_ne base k key _ hk]
  | case3 base key value rest hnot IH =>
    simp only [noDupKeysV, Bool.and_eq_true, Bool.not_eq_true'] at hnd
    rw [mergeDicts.eq_3 base key rest value hnot, IH hnd.2]
    by_cases hk : key = k
    · subst hk
      have hrest : lookupV rest key = Option.none :=
        lookupV_eq_none_of_not_hasKey rest key hnd.1
      simp only [mergeSpec, lookupV, if_pos rfl, hrest,
        lookupV_setKeyV_self, if_true, eq_self_iff_true]
    · simp [mergeSpec, lookupV, if_neg hk, lookupV_setKeyV_ne base k key _ hk]

/-- C5: `merge_configs([a])` is value-equal to `a` (identity for a
single source), and `merge_configs([a, a])` is value-equal to `a`
(idempotence for a fixed-point input), for every mapping `a`
satisfying the CPython dict representation invariant (unique keys at
every nesting level). -/
theorem C5_merge_identity_and_idempotence (a : Obj) (h : wfObj a = true) :
    merge_configs [a] = a ∧ merge_configs [a, a] = a := by
  constructor
  · rfl
  · show mergeDicts a a = a
    exact mergeDicts_eq_self a a h
      (fun k v hm => lookupV_of_mem_of_wf a k v h hm)

/-- A concrete nested configuration mapping used to instantiate the
merge theorems. -/
def exampleConfig : Obj :=
  [("project_type", Val.str "python"),
   ("jira", Val.dict [("enabled", Val.bool true), ("project_key", Val.str "PMS")]),
   ("branches", Val.dict [("feature", Val.dict [("base", Val.str "develop")])]),
   ("required_checks", Val.list [Val.str "tests"])]

/-- Witness for C5 at a concrete nested mapping. -/
theorem C5_witness :
    wfObj exampleConfig = true ∧
    merge_configs [exampleConfig] = exampleConfig ∧
    merge_configs [exampleConfig, exampleConfig] = exampleConfig :=
  ⟨rfl, (C5_merge_identity_and_idempotence exampleConfig rfl).1,
    (C5_merge_identity_and_idempotence exampleConfig rfl).2⟩

/-- C4: per-key semantics of the deep merge.  For every key, the
result of `_merge_dicts` is described by `mergeSpec`: if both the
accumulator value and the incoming value are mappings they are merged
recursively, otherwise the incoming value replaces the accumulator
value outright; in particular an incoming list value always replaces
whatever the accumulator held (never concatenated or appended). -/
theorem C4_merge_per_key (base overlay : Obj)
    (hnd : noDupKeysV overlay = true) (k : String) :
    lookupV (mergeDicts base overlay) k = mergeSpec base overlay k ∧
    (∀ l, lookupV overlay k = some (Val.list l) →
      lookupV (mergeDicts base overlay) k = some (Val.list l)) := by
  refine ⟨lookupV_mergeDicts base overlay hnd k, ?_⟩
  intro l hl
  rw [lookupV_mergeDicts base overlay hnd k]
  simp only [mergeSpec, hl]
  cases hb : lookupV base k with
  | none => rfl
  | some bv => cases bv <;> rfl

/-- Witness for C4: a list-valued key in the overlay replaces the
base's list wholesale. -/
theorem C4_witness :
    noDupKeysV [("required_checks", Val.list [Val.str "lint"])] = true ∧
    lookupV (mergeDicts
        [("required_checks", Val.list [Val.str "tests"]), ("x", Val.int 1)]
        [("required_checks", Val.list [Val.str "lint"])]) "required_checks"
      = some (Val.list [Val.str "lint"]) :=
  ⟨rfl, (C4_merge_per_key
      [("required_checks", Val.list [Val.str "tests"]), ("x", Val.int 1)]
      [("required_checks", Val.list [Val.str "lint"])]
      rfl "required_checks").2 [Val.str "lint"] rfl⟩

/-!
### Heap model of `merge_configs` (object identity and mutation)

`_merge_dicts` mutates `base` in place, and `merge_configs` starts
from `configs[0].copy()` — a *shallow* copy that shares every nested
dict object with `configs[0]`.  To talk about mutation of the inputs
we model the Python object graph explicitly: dict objects live in a
heap addressed by `Nat`, and a stored value is either a scalar or a
reference to a heap cell.  (List values behave exactly like scalars
for the merge — replaced wholesale, never entered — and are omitted
from this model.)
-/

/-- A Python value as stored in a dict object: a scalar or a reference
to a dict object in the heap. -/
inductive HVal where
  | int : Int → HVal
  | str : String → HVal
  | ref : Nat → HVal
deriving DecidableEq

/-- Entry list of a single dict object. -/
abbrev HObj := List (String × HVal)

/-- The object heap; the address of a cell is its index. -/
abbrev Heap := List HObj

def getObj (h : Heap) (a : Nat) : HObj := h.getD a []

def setObj (h : Heap) (a : Nat) (o : HObj) : Heap := h.set a o

def lookupH : HObj → String → Option HVal
  | [], _ => Option.none
  | (k, v) :: rest, key => if k = key then some v else lookupH rest key

def setKeyH : HObj → String → HVal → HObj
  | [], key, v => [(key, v)]
  | (k, w) :: rest, key, v =>
    if k = key then (k, v) :: rest else (k, w) :: setKeyH rest key v

/-- `_merge_dicts(base, overlay)` on the object graph: `base` is the
address of the dict being mutated, and the list argument is the
remaining part of `overlay.items()` (no call from `merge_configs`
changes the key set of an overlay while it is being iterated, so the
snapshot is faithful).  `fuel` bounds the recursion depth; with fuel
exceeding the nesting depth the model never returns `none`. -/
def mergeDictsH : Nat → Heap → Nat → List (String × HVal) → Option Heap
  | 0, _, _, _ => Option.none
  | _ + 1, h, _, [] => some h
  | fuel + 1, h, base, (key, value) :: rest =>
    match lookupH (getObj h base) key, value with
    | some (HVal.ref bAddr), HVal.ref oAddr =>
      match mergeDictsH fuel h bAddr (getObj h oAddr) with
      | some h2 => mergeDictsH fuel h2 base rest
      | Option.none => Option.none
    | _, _ =>
      mergeDictsH fuel (setObj h base (setKeyH (getObj h base) key value)) base rest

/-- The `for config in configs[1:]` loop of `merge_configs`. -/
def mergeConfigsLoopH : Nat → Heap → Nat → List Nat → Option Heap
  | _, h, _, [] => some h
  | fuel, h, result, a :: rest =>
    match mergeDictsH fuel h result (getObj h a) with
    | some h2 => mergeConfigsLoopH fuel h2 result rest
    | Option.none => Option.none

/-- `merge_configs(configs)` on the object graph: an empty input
yields a fresh `{}`; otherwise `result = configs[0].copy()` allocates
a fresh cell holding the *same entry list* as `configs[0]` (nested
references shared — a shallow copy), then `_merge_dicts(result,
config)` runs for each later element.  Returns the final heap and the
address of the result object. -/
def merge_configsH (fuel : Nat) (h : Heap) (configs : List Nat) :
    Option (Heap × Nat) :=
  match configs with
  | [] => some (h ++ [[]], h.length)
  | a0 :: rest =>
    match mergeConfigsLoopH fuel (h ++ [getObj h a0]) h.length rest with
    | some h2 => some (h2, h.length)
    | Option.none => Option.none

/-- The heap for the Python call
`merge_configs([{"a": {"x": 1}}, {"a": {"y": 2}}])`: cell 0 is the
nested dict `{"x": 1}` of the first input element, cell 1 the first
element `{"a": <cell 0>}`, cell 2 the nested dict `{"y": 2}` of the
second element, cell 3 the second element `{"a": <cell 2>}`. -/
def mutationHeap : Heap :=
  [[("x", HVal.int 1)],
   [("a", HVal.ref 0)],
   [("y", HVal.int 2)],
   [("a", HVal.ref 2)]]

/-- C1: the claim that `merge_configs` never mutates its input list
elements (including their nested sub-mappings) fails on the code.
Running `merge_configs([{"a": {"x": 1}}, {"a": {"y": 2}}])` mutates
cell 0 — the nested sub-mapping of the *first input element* — from
`{"x": 1}` to `{"x": 1, "y": 2}`, because the top-level shallow copy
shares that cell and `_merge_dicts` updates it in place. -/
theorem C1_merge_mutates_input :
    getObj mutationHeap 0 = [("x", HVal.int 1)] ∧
    getObj mutationHeap 1 = [("a", HVal.ref 0)] ∧
    (merge_configsH 10 mutationHeap [1, 3]).map (fun p => getObj p.1 0)
      = some [("x", HVal.int 1), ("y", HVal.int 2)] ∧
    (merge_configsH 10 mutationHeap [1, 3]).map (fun p => getObj p.1 1)
      = some [("a", HVal.ref 0)] := by
  refine ⟨rfl, rfl, ?_, ?_⟩ <;> rfl

/-!
### Project-type detector (`config/detector.py`)

`detect_project_type` scores each `ProjectType` against
`PROJECT_TYPE_INDICATORS` by scanning a directory.  The directory is
abstracted by the two queries the code makes of it; real (float)
arithmetic is modelled over `ℚ`.
-/

/-- The `ProjectType` enum, in definition order (which is also the
iteration order of `for pt in ProjectType`). -/
inductive ProjectType where
  | python
  | javascript
  | typescript
  | java
  | csharp
  | go
  | rust
  | generic
deriving DecidableEq

/-- Iteration order of `for pt in ProjectType`. -/
def ptList : List ProjectType :=
  [.python, .javascript, .typescript, .java, .csharp, .go, .rust, .generic]

/-- Abstraction of the scanned directory: `paths` is the set of
relative paths for which `(directory / name).exists()` holds (plain
files or directories), `files` the relative paths of the regular
files yielded by `os.walk`. -/
structure Dir where
  paths : List String
  files : List String

def fileExists (d : Dir) (name : String) : Bool := d.paths.contains name

/-- `file.endswith(ext)`, computed on the character list (the string
primitive does not reduce in the kernel). -/
def strEndsWith (s suffix : String) : Bool :=
  suffix.data.isSuffixOf s.data

/-- The `total_count` computed by the extension-counting walk: the
walk breaks out once `max_count` (default 100) matching files have
been seen, so the count is capped at 100. -/
def extCount (d : Dir) (suffix : String) : Nat :=
  min (d.files.countP (fun f => strEndsWith f suffix)) 100

/-- One entry of `PROJECT_TYPE_INDICATORS`.  No indicator in the table
carries an explicit `"weight"`, `"max_count"`, `"weight_per_file"` or
`"max_weight"` key, so the `.get(...)` defaults in
`detect_project_type` always apply.  `dirOnly` is the
`{"dir": "src/main/java"}` entry, which matches no branch of the
`if`/`elif` chain in the scoring loop and can therefore only
contribute to the max-possible score. -/
inductive Indicator where
  | file (name : String)
  | dirFile (dir : String) (name : String)
  | ext (suffix : String) (minCount : Nat)
  | dirOnly (dir : String)
deriving DecidableEq

def PROJECT_TYPE_INDICATORS : ProjectType → List Indicator
  | .python =>
    [.file "pyproject.toml", .file "setup.py", .file "requirements.txt",
     .dirFile "src" "__init__.py", .ext ".py" 3]
  | .javascript =>
    [.file "package.json", .file "node_modules", .ext ".js" 3, .ext ".jsx" 1]
  | .typescript => [.file "tsconfig.json", .ext ".ts" 3, .ext ".tsx" 1]
  | .java =>
    [.file "pom.xml", .file "build.gradle", .dirOnly "src/main/java",
     .ext ".java" 3]
  | .csharp => [.file ".sln", .ext ".csproj" 1, .ext ".cs" 3]
  | .go => [.file "go.mod", .file "go.sum", .ext ".go" 3]
  | .rust => [.file "Cargo.toml", .file "Cargo.lock", .ext ".rs" 3]
  | .generic => []

/-- Contribution of one indicator to `raw_scores[project_type]`:
matched file and dir/file indicators add `indicator.get("weight", 2)`,
an extension indicator whose count reaches `min_count` adds
`min(total_count * 0.5, 3)`, and the dir-only indicator adds
nothing. -/
def indicatorRaw (d : Dir) : Indicator → ℚ
  | .file name => if fileExists d name then 2 else 0
  | .dirFile dir name => if fileExists d (dir ++ "/" ++ name) then 2 else 0
  | .ext suffix minCount =>
    if minCount ≤ extCount d suffix
    then min ((extCount d suffix : ℚ) * (1 / 2)) 3
    else 0
  | .dirOnly _ => 0

/-- Contribution of one indicator to `max_possible_scores`:
`indicator.get("weight", 1)`, i.e. 1 for every indicator in the
table. -/
def indicatorMax : Indicator → ℚ := fun _ => 1

def rawScore (d : Dir) (pt : ProjectType) : ℚ :=
  ((PROJECT_TYPE_INDICATORS pt).map (indicatorRaw d)).sum

def maxPossibleScore (pt : ProjectType) : ℚ :=
  ((PROJECT_TYPE_INDICATORS pt).map indicatorMax).sum

/-- `normalized_scores[pt]`: `raw / max_possible` when
`max_possible_scores[pt] > 0`, else `0.0`. -/
def normalizedScore (d : Dir) (pt : ProjectType) : ℚ :=
  if 0 < maxPossibleScore pt then rawScore d pt / maxPossibleScore pt else 0

/-- The `for project_type, score in normalized_scores.items()` loop:
strict `score > max_score` comparison starting from `(0.0, GENERIC)`,
iterating in enum order.  Returns `(max_score, detected_type)`. -/
def argmaxLoop (d : Dir) : List ProjectType → ℚ → ProjectType → ℚ × ProjectType
  | [], m, best => (m, best)
  | pt :: rest, m, best =>
    if m < normalizedScore d pt
    then argmaxLoop d rest (normalizedScore d pt) pt
    else argmaxLoop d rest m best

/-- `detect_project_type(directory)` for an existing directory:
returns `(detected_type, confidence, normalized_scores)`, with the
detected type forced to `GENERIC` when the winning score is below the
fixed 0.15 confidence threshold. -/
def detect_project_type (d : Dir) : ProjectType × ℚ × (ProjectType → ℚ) :=
  let r := argmaxLoop d ptList 0 ProjectType.generic
  (if r.1 < 15 / 100 then ProjectType.generic else r.2, r.1,
    fun pt => normalizedScore d pt)

/-- Every project type is visited by the scoring loop. -/
theorem mem_ptList (pt : ProjectType) : pt ∈ ptList := by
  cases pt <;> simp [ptList]

/-- Loop invariant of the argmax scan: the running maximum never
decreases, bounds every score seen, and the final pair is either the
initial one or a type together with its own score. -/
theorem argmaxLoop_spec (d : Dir) :
    ∀ (l : List ProjectType) (m : ℚ) (best : ProjectType),
      m ≤ (argmaxLoop d l m best).1 ∧
      (∀ pt ∈ l, normalizedScore d pt ≤ (argmaxLoop d l m best).1) ∧
      (argmaxLoop d l m best = (m, best) ∨
        normalizedScore d (argmaxLoop d l m best).2 = (argmaxLoop d l m best).1) := by
  intro l
  induction l with
  | nil => intro m best; exact ⟨le_refl m, by simp, Or.inl rfl⟩
  | cons pt rest ih =>
    intro m best
    by_cases hlt : m < normalizedScore d pt
    · have h := ih (normalizedScore d pt) pt
      simp only [argmaxLoop, if_pos hlt]
      refine ⟨le_trans (le_of_lt hlt) h.1, ?_, ?_⟩
      · intro q hq
        rcases List.mem_cons.mp hq with h1 | h1
        · subst h1; exact h.1
        · exact h.2.1 q h1
      · rcases h.2.2 with h2 | h2
        · rw [h2]; exact Or.inr rfl
        · exact Or.inr h2
    · have h := ih m best
      simp only [argmaxLoop, if_neg hlt]
      refine ⟨h.1, ?_, h.2.2⟩
      intro q hq
      rcases List.mem_cons.mp hq with h1 | h1
      · subst h1; exact le_trans (le_of_not_lt hlt) h.1
      · exact h.2.1 q h1

/-- C7: if the winning normalized score is below the 0.15 confidence
threshold the detected type is `generic`, regardless of which type
scored highest; otherwise the detected type attains the maximum of
the normalized scores (it is an argmax). -/
theorem C7_detector_threshold_argmax (d : Dir) :
    ((detect_project_type d).2.1 < 15 / 100 →
      (detect_project_type d).1 = ProjectType.generic) ∧
    (15 / 100 ≤ (detect_project_type d).2.1 →
      (detect_project_type d).2.2 (detect_project_type d).1
          = (detect_project_type d).2.1 ∧
        ∀ pt, (detect_project_type d).2.2 pt ≤ (detect_project_type d).2.1) := by
  have h := argmaxLoop_spec d ptList 0 ProjectType.generic
  simp only [detect_project_type]
  constructor
  · intro hlt
    rw [if_pos hlt]
  · intro hge
    have hnl : ¬ (argmaxLoop d ptList 0 ProjectType.generic).1 < 15 / 100 :=
      not_lt.mpr hge
    rw [if_neg hnl]
    constructor
    · rcases h.2.2 with h2 | h2
      · exfalso
        rw [h2] at hge
        norm_num at hge
      · exact h2
    · intro pt
      exact h.2.1 pt (mem_ptList pt)

/-- The directory refuting C2's `[0,1]` bound: it contains exactly
the three files `pyproject.toml`, `setup.py` and
`requirements.txt`. -/
def overOneDir : Dir :=
  { paths := ["pyproject.toml", "setup.py", "requirements.txt"],
    files := ["pyproject.toml", "setup.py", "requirements.txt"] }

theorem overOneDir_python_score :
    normalizedScore overOneDir ProjectType.python = 6 / 5 := by
  have hraw : rawScore overOneDir ProjectType.python = 6 := by
    simp +decide [rawScore, PROJECT_TYPE_INDICATORS, indicatorRaw]
    try norm_num
  have hmax : maxPossibleScore ProjectType.python = 5 := by
    simp [maxPossibleScore, PROJECT_TYPE_INDICATORS, indicatorMax]
    try norm_num
  unfold normalizedScore
  rw [hraw, hmax]
  rw [if_pos (by norm_num : (0 : ℚ) < 5)]
  try norm_num

theorem overOneDir_other_score (pt : ProjectType)
    (h : ¬ pt = ProjectType.python) : normalizedScore overOneDir pt = 0 := by
  cases pt with
  | python => exact absurd rfl h
  | javascript =>
    have hraw : rawScore overOneDir ProjectType.javascript = 0 := by
      simp +decide [rawScore, PROJECT_TYPE_INDICATORS, indicatorRaw]
      try norm_num
    have hmax : maxPossibleScore ProjectType.javascript = 4 := by
      simp [maxPossibleScore, PROJECT_TYPE_INDICATORS, indicatorMax]
      try norm_num
    unfold normalizedScore
    rw [hraw, hmax, if_pos (by norm_num : (0 : ℚ) < 4)]
    try norm_num
  | typescript =>
    have hraw : rawScore overOneDir ProjectType.typescript = 0 := by
      simp +decide [rawScore, PROJECT_TYPE_INDICATORS, indicatorRaw]
      try norm_num
    have hmax : maxPossibleScore ProjectType.typescript = 3 := by
      simp [maxPossibleScore, PROJECT_TYPE_INDICATORS, indicatorMax]
      try norm_num
    unfold normalizedScore
    rw [hraw, hmax, if_pos (by norm_num : (0 : ℚ) < 3)]
    try norm_num
  | java =>
    have hraw : rawScore overOneDir ProjectType.java = 0 := by
      simp +decide [rawScore, PROJECT_TYPE_INDICATORS, indicatorRaw]
      try norm_num
    have hmax : maxPossibleScore ProjectType.java = 4 := by
      simp [maxPossibleScore, PROJECT_TYPE_INDICATORS, indicatorMax]
      try norm_num
    unfold normalizedScore
    rw [hraw, hmax, if_pos (by norm_num : (0 : ℚ) < 4)]
    try norm_num
  | csharp =>
    have hraw : rawScore overOneDir ProjectType.csharp = 0 := by
      simp +decide [rawScore, PROJECT_TYPE_INDICATORS, indicatorRaw]
      try norm_num
    have hmax : maxPossibleScore ProjectType.csharp = 3 := by
      simp [maxPossibleScore, PROJECT_TYPE_INDICATORS, indicatorMax]
      try norm_num
    unfold normalizedScore
    rw [hraw, hmax, if_pos (by norm_num : (0 : ℚ) < 3)]
    try norm_num
  | go =>
    have hraw : rawScore overOneDir ProjectType.go = 0 := by
      simp +decide [rawScore, PROJECT_TYPE_INDICATORS, indicatorRaw]
      try norm_num
    have hmax : maxPossibleScore ProjectType.go = 3 := by
      simp [maxPossibleScore, PROJECT_TYPE_INDICATORS, indicatorMax]
      try norm_num
    unfold normalizedScore
    rw [hraw, hmax, if_pos (by norm_num : (0 : ℚ) < 3)]
    try norm_num
  | rust =>
    have hraw : rawScore overOneDir ProjectType.rust = 0 := by
      simp +decide [rawScore, PROJECT_TYPE_INDICATORS, indicatorRaw]
      try norm_num
    have hmax : maxPossibleScore ProjectType.rust = 3 := by
      simp [maxPossibleScore, PROJECT_TYPE_INDICATORS, indicatorMax]
      try norm_num
    unfold normalizedScore
    rw [hraw, hmax, if_pos (by norm_num : (0 : ℚ) < 3)]
    try norm_num
  | generic =>
    have hmax : maxPossibleScore ProjectType.generic = 0 := by
      simp [maxPossibleScore, PROJECT_TYPE_INDICATORS, indicatorMax]
    unfold normalizedScore
    rw [hmax, if_neg (by norm_num : ¬ (0 : ℚ) < 0)]

/-- Evaluation of the argmax scan on `overOneDir`: python wins with
score 6/5. -/
theorem argmaxLoop_overOneDir :
    argmaxLoop overOneDir ptList 0 ProjectType.generic
      = (6 / 5, ProjectType.python) := by
  have hpy := overOneDir_python_score
  have hz := overOneDir_other_score
  rw [show ptList = ProjectType.python ::
      [ProjectType.javascript, ProjectType.typescript, ProjectType.java,
       ProjectType.csharp, ProjectType.go, ProjectType.rust,
       ProjectType.generic] from rfl]
  rw [argmaxLoop, hpy, if_pos (by norm_num : (0 : ℚ) < 6 / 5)]
  rw [argmaxLoop, hz ProjectType.javascript (by simp),
    if_neg (by norm_num : ¬ (6 / 5 : ℚ) < 0)]
  rw [argmaxLoop, hz ProjectType.typescript (by simp),
    if_neg (by norm_num : ¬ (6 / 5 : ℚ) < 0)]
  rw [argmaxLoop, hz ProjectType.java (by simp),
    if_neg (by norm_num : ¬ (6 / 5 : ℚ) < 0)]
  rw [argmaxLoop, hz ProjectType.csharp (by simp),
    if_neg (by norm_num : ¬ (6 / 5 : ℚ) < 0)]
  rw [argmaxLoop, hz ProjectType.go (by simp),
    if_neg (by norm_num : ¬ (6 / 5 : ℚ) < 0)]
  rw [argmaxLoop, hz ProjectType.rust (by simp),
    if_neg (by norm_num : ¬ (6 / 5 : ℚ) < 0)]
  rw [argmaxLoop, hz ProjectType.generic (by simp),
    if_neg (by norm_num : ¬ (6 / 5 : ℚ) < 0)]
  rw [argmaxLoop]

/-- C2 counterexample: on `overOneDir` the three matched file
indicators contribute their default raw weight 2 each while the max
possible score accumulates the default weight 1 per indicator (five
indicators), so the normalized python score — and the returned
confidence — is 6/5, outside `[0,1]`. -/
theorem C2_counterexample :
    normalizedScore overOneDir ProjectType.python = 6 / 5 ∧
    ¬ normalizedScore overOneDir ProjectType.python ≤ 1 ∧
    (detect_project_type overOneDir).2.1 = 6 / 5 ∧
    ¬ (detect_project_type overOneDir).2.1 ≤ 1 := by
  have hconf : (detect_project_type overOneDir).2.1 = 6 / 5 := by
    simp only [detect_project_type, argmaxLoop_overOneDir]
  refine ⟨overOneDir_python_score, ?_, hconf, ?_⟩
  · rw [overOneDir_python_score]; norm_num
  · rw [hconf]; norm_num

/-- C2 amended: every normalized score equals the raw score divided
by the max possible score (0 when a type has no indicators) and is
nonnegative — but it is not bounded by 1, because matched file
indicators contribute the raw-score default weight 2 while the
max-possible accumulator uses the default weight 1. -/
theorem C2_scores_raw_over_max_nonneg (d : Dir) (pt : ProjectType) :
    0 ≤ normalizedScore d pt ∧
    normalizedScore d pt =
      (if maxPossibleScore pt = 0 then 0
       else rawScore d pt / maxPossibleScore pt) := by
  have hraw : 0 ≤ rawScore d pt := by
    apply List.sum_nonneg
    intro x hx
    simp only [List.mem_map] at hx
    obtain ⟨i, _, rfl⟩ := hx
    cases i with
    | file name => dsimp [indicatorRaw]; split <;> norm_num
    | dirFile dir name => dsimp [indicatorRaw]; split <;> norm_num
    | ext suffix minCount =>
      dsimp [indicatorRaw]
      split
      · exact le_min (by positivity) (by norm_num)
      · norm_num
    | dirOnly dir => norm_num [indicatorRaw]
  have hmax : 0 ≤ maxPossibleScore pt := by
    apply List.sum_nonneg
    intro x hx
    simp only [List.mem_map] at hx
    obtain ⟨i, _, rfl⟩ := hx
    norm_num [indicatorMax]
  constructor
  · unfold normalizedScore
    by_cases hp : 0 < maxPossibleScore pt
    · rw [if_pos hp]; exact div_nonneg hraw (le_of_lt hp)
    · rw [if_neg hp]
  · unfold normalizedScore
    by_cases hz : maxPossibleScore pt = 0
    · rw [if_neg (by rw [hz]; exact lt_irrefl 0), if_pos hz]
    · have hp : 0 < maxPossibleScore pt := lt_of_le_of_ne hmax (Ne.symm hz)
      rw [if_pos hp, if_neg hz]

/-- Witness for C7 at a concrete directory: the confidence clears the
threshold and the detected type attains the maximum score. -/
theorem C7_witness :
    15 / 100 ≤ (detect_project_type overOneDir).2.1 ∧
    (detect_project_type overOneDir).2.2 (detect_project_type overOneDir).1
      = (detect_project_type overOneDir).2.1 := by
  have hge : 15 / 100 ≤ (detect_project_type overOneDir).2.1 := by
    have hconf : (detect_project_type overOneDir).2.1 = 6 / 5 := by
      simp only [detect_project_type, argmaxLoop_overOneDir]
    rw [hconf]; norm_num
  exact ⟨hge, ((C7_detector_threshold_argmax overOneDir).2 hge).1⟩

/-!
### Hierarchical config locator (`config/hierarchy.py`,
`find_hierarchical_configs`)

A resolved directory is its list of path segments: the filesystem
root is `[]` and `Path.parent` is `List.dropLast` (the root is its own
parent, as on POSIX).  The filesystem is abstracted by the one query
the locator makes: does a file of a given name exist in a given
directory. -/

/-- `fs dir name = true` iff `(dir / name).exists()`. -/
abbrev FileSystem := List String → String → Bool

/-- A discovered configuration file: its directory and file name. -/
abbrev ConfigPath := List String × String

/-- `find_config_file(directory)` from `config/loader.py` (lines
51-73): `.practices.yaml` first, then the `.practices.yml`
alternative. -/
def find_config_file (fs : FileSystem) (dir : List String) : Option ConfigPath :=
  if fs dir ".practices.yaml" then some (dir, ".practices.yaml")
  else if fs dir ".practices.yml" then some (dir, ".practices.yml")
  else Option.none

/-- The user-tier entries appended by `find_hierarchical_configs`:
`.practices.user.yaml`, else `.practices.user.yml`, looked up in the
project directory only. -/
def userEntries (fs : FileSystem) (dir : List String) :
    List (ConfigPath × String) :=
  if fs dir ".practices.user.yaml" then [((dir, ".practices.user.yaml"), "user")]
  else if fs dir ".practices.user.yml" then [((dir, ".practices.user.yml"), "user")]
  else []

/-- The project-tier entries appended by `find_hierarchical_configs`. -/
def projectEntries (fs : FileSystem) (dir : List String) :
    List (ConfigPath × String) :=
  match find_config_file fs dir with
  | some p => [(p, "project")]
  | Option.none => []

/-- The team-tier entries contributed by one ancestor directory. -/
def teamEntry (fs : FileSystem) (dir : List String) :
    List (ConfigPath × String) :=
  match find_config_file fs dir with
  | some p => [(p, "team")]
  | Option.none => []

/-- The `while current != current.parent` walk of
`find_hierarchical_configs`: visit each proper ancestor (nearest
first), stopping at the filesystem root, which is never itself
checked. -/
def teamLoop (fs : FileSystem) (current : List String) :
    List (ConfigPath × String) :=
  if h : current = [] then []
  else teamEntry fs current ++ teamLoop fs current.dropLast
termination_by current.length
decreasing_by
  rw [List.length_dropLast]
  have hpos : 0 < current.length := List.length_pos.mpr h
  omega

/-- `find_hierarchical_configs(directory)` (`config/hierarchy.py`
lines 38-78): append the user entry, the project entry and the team
entries from the nearest ancestor outward, then reverse the list. -/
def find_hierarchical_configs (fs : FileSystem) (dir : List String) :
    List (ConfigPath × String) :=
  (userEntries fs dir ++ projectEntries fs dir ++ teamLoop fs dir.dropLast).reverse

/-- The proper ancestors of a directory, nearest first, excluding the
filesystem root. -/
def ancestorChain (current : List String) : List (List String) :=
  if h : current = [] then []
  else current :: ancestorChain current.dropLast
termination_by current.length
decreasing_by
  rw [List.length_dropLast]
  have hpos : 0 < current.length := List.length_pos.mpr h
  omega

/-- Concatenation of the images of a list under a list-valued map. -/
def catMap (f : α → List β) : List α → List β
  | [] => []
  | a :: l => f a ++ catMap f l

theorem catMap_append (f : α → List β) (l1 l2 : List α) :
    catMap f (l1 ++ l2) = catMap f l1 ++ catMap f l2 := by
  induction l1 with
  | nil => rfl
  | cons a l ih => simp [catMap, ih]

theorem reverse_of_length_le_one (xs : List β) (h : xs.length ≤ 1) :
    xs.reverse = xs := by
  cases xs with
  | nil => rfl
  | cons a t =>
    cases t with
    | nil => rfl
    | cons b t2 => simp at h

theorem reverse_catMap_single (f : α → List β)
    (hf : ∀ a, (f a).length ≤ 1) (l : List α) :
    (catMap f l).reverse = catMap f l.reverse := by
  induction l with
  | nil => rfl
  | cons a l ih =>
    simp only [catMap, List.reverse_append, ih, List.reverse_cons,
      catMap_append]
    simp [catMap, reverse_of_length_le_one (f a) (hf a)]

theorem teamEntry_length_le_one (fs : FileSystem) (a : List String) :
    (teamEntry fs a).length ≤ 1 := by
  unfold teamEntry
  cases find_config_file fs a <;> simp

theorem teamLoop_eq_catMap (fs : FileSystem) (current : List String) :
    teamLoop fs current = catMap (teamEntry fs) (ancestorChain current) := by
  induction current using teamLoop.induct fs with
  | case1 => simp [teamLoop, ancestorChain, catMap]
  | case2 current h ih =>
    rw [teamLoop, ancestorChain]
    rw [dif_neg h, dif_neg h]
    simp [catMap, ih]

/-- C6: ordering contract of the locator.  The returned list is the
team-tier entries from the most distant ancestor down to the nearest
(`(ancestorChain ...).reverse` is farthest-first), then the
project-tier entry, then the user-tier entry last. -/
theorem C6_hierarchical_order (fs : FileSystem) (dir : List String) :
    find_hierarchical_configs fs dir =
      catMap (teamEntry fs) (ancestorChain dir.dropLast).reverse
        ++ projectEntries fs dir ++ userEntries fs dir := by
  unfold find_hierarchical_configs
  rw [List.reverse_append, List.reverse_append]
  rw [teamLoop_eq_catMap,
    reverse_catMap_single (teamEntry fs) (teamEntry_length_le_one fs)]
  have hp : (projectEntries fs dir).reverse = projectEntries fs dir := by
    apply reverse_of_length_le_one
    unfold projectEntries
    cases find_config_file fs dir <;> simp
  have hu : (userEntries fs dir).reverse = userEntries fs dir := by
    apply reverse_of_length_le_one
    unfold userEntries
    split
    · simp
    · split <;> simp
  rw [hp, hu, List.append_assoc]

/-!
### Configuration schema (`config/schema.py`) and semantic validator
(`config/validator.py`)

The pydantic models become structures (field defaults preserved; the
`pre_commit` and `license_headers` fields are omitted — no operation
modelled here reads them).  Python's `re` module is abstracted by an
oracle giving, for each pattern, whether `re.compile` raises (and
with which message) and how many capture groups a compiled pattern
has. -/

/-- The apostrophe character, as used in the validator's f-string
error messages. -/
def apos : String := Char.toString (Char.ofNat 39)

inductive BranchingStrategy where
  | gitflow
  | githubFlow
  | trunk
deriving DecidableEq

/-- `.value` of the `BranchingStrategy` str-enum. -/
def BranchingStrategy.value : BranchingStrategy → String
  | .gitflow => "gitflow"
  | .githubFlow => "github-flow"
  | .trunk => "trunk"

inductive WorkflowMode where
  | solo
  | team
deriving DecidableEq

inductive VersionBump where
  | major
  | minor
  | patch
  | none
deriving DecidableEq

structure BranchConfig where
  pattern : String
  base : String
  target : Option (List String) := Option.none
  version_bump : Option VersionBump := Option.none
deriving DecidableEq

structure VersionFileConfig where
  path : String
  pattern : String
deriving DecidableEq

structure VersionConfig where
  files : List VersionFileConfig
  use_bumpversion : Bool := true
  bumpversion_config : Option String := some ".bumpversion.cfg"
  changelog : Option String := some "CHANGELOG.md"
deriving DecidableEq

structure PRTemplateConfig where
  feature : Option String := Option.none
  bugfix : Option String := Option.none
  release : Option String := Option.none
  hotfix : Option String := Option.none
  docs : Option String := Option.none
deriving DecidableEq

structure PRCheckConfig where
  run_tests : Bool := true
  run_linting : Bool := true
deriving DecidableEq

structure PRConfig where
  templates : Option PRTemplateConfig := Option.none
  checks : Option PRCheckConfig := Option.none
deriving DecidableEq

structure JiraConfig where
  enabled : Bool := true
  project_key : String
  transition_to_in_progress : Bool := true
  update_on_pr_creation : Bool := true
deriving DecidableEq

structure GitHubConfig where
  enabled : Bool := true
  owner : Option String := Option.none
  repo : Option String := Option.none
  create_pr : Bool := true
  required_checks : Option (List String) := Option.none
deriving DecidableEq

structure ConfigurationSchema where
  project_type : ProjectType := ProjectType.python
  branching_strategy : BranchingStrategy := BranchingStrategy.gitflow
  workflow_mode : WorkflowMode := WorkflowMode.solo
  main_branch : String := "main"
  develop_branch : Option String := some "develop"
  branches : List (String × BranchConfig) := []
  version : Option VersionConfig := Option.none
  pull_requests : Option PRConfig := Option.none
  jira : Option JiraConfig := Option.none
  github : Option GitHubConfig := Option.none
deriving DecidableEq

/-- Python truthiness of an `Optional[str]` field: `None` and `""`
are falsy. -/
def strTruthy : Option String → Bool
  | Option.none => false
  | some s => !(decide (s = ""))

/-- Abstraction of Python's `re` module: `compileError p = some e`
models `re.compile(p)` raising `re.error` with text `e`; `groups p`
is the capture-group count of a successfully compiled pattern. -/
structure RegexOracle where
  compileError : String → Option String
  groups : String → Nat

/-- `branch_type in config.branches`. -/
def hasKeyB (branches : List (String × BranchConfig)) (key : String) : Bool :=
  branches.any (fun p => p.1 = key)

/-- The error string `f"{name} strategy requires '{branch_type}'
branch configuration"` of `_validate_branch_configs`. -/
def strategyRequiresMsg (name bt : String) : String :=
  name ++ " strategy requires " ++ apos ++ bt ++ apos ++ " branch configuration"

/-- Shorthand for the gitflow instance of `strategyRequiresMsg`. -/
def gitflowRequiresMsg (bt : String) : String :=
  strategyRequiresMsg "GitFlow" bt

/-- The missing-required-branch-type errors of
`_validate_branch_configs`. -/
def requiredBranchErrors (name : String) (required : List String)
    (branches : List (String × BranchConfig)) : List String :=
  required.filterMap fun bt =>
    if hasKeyB branches bt then Option.none
    else some (strategyRequiresMsg name bt)

/-- `_validate_branch_configs(config)` (`config/validator.py` lines
65-122): strategy-specific required branch types, regex validity of
each branch pattern, and existence of base and target branches among
`{main_branch, develop_branch}`. -/
def _validate_branch_configs (ro : RegexOracle) (config : ConfigurationSchema) :
    List String :=
  (if config.branching_strategy.value = "gitflow" then
    (if strTruthy config.develop_branch then []
     else ["GitFlow strategy requires a develop_branch"])
    ++ requiredBranchErrors "GitFlow" ["feature", "bugfix", "release", "hotfix"]
        config.branches
   else if config.branching_strategy.value = "github-flow" then
    requiredBranchErrors "GitHub Flow" ["feature", "bugfix"] config.branches
   else if config.branching_strategy.value = "trunk" then
    requiredBranchErrors "Trunk-based" ["feature", "bugfix"] config.branches
   else [])
  ++ (config.branches.filterMap fun bc =>
      match ro.compileError bc.2.pattern with
      | some e => some ("Invalid regex pattern for " ++ apos ++ bc.1 ++ apos
          ++ " branch: " ++ e)
      | Option.none => Option.none)
  ++ (config.branches.filterMap fun bc =>
      if bc.2.base = config.main_branch ∨ some bc.2.base = config.develop_branch
      then Option.none
      else some ("Base branch " ++ apos ++ bc.2.base ++ apos ++ " for " ++ apos
          ++ bc.1 ++ apos ++ " branch does not exist in configuration"))
  ++ catMap (fun bc =>
      match bc.2.target with
      | Option.none => []
      | some ts => ts.filterMap fun t =>
        if t = config.main_branch ∨ some t = config.develop_branch
        then Option.none
        else some ("Target branch " ++ apos ++ t ++ apos ++ " for " ++ apos
            ++ bc.1 ++ apos ++ " branch does not exist in configuration"))
      config.branches

/-- `_validate_version_configs(config)` (lines 125-155). -/
def _validate_version_configs (ro : RegexOracle) (config : ConfigurationSchema) :
    List String :=
  match config.version with
  | Option.none => []
  | some v =>
    (if v.files = [] then ["Version configuration requires at least one file"]
     else [])
    ++ v.files.filterMap fun fc =>
      match ro.compileError fc.pattern with
      | some e => some ("Invalid regex pattern for version file: " ++ e)
      | Option.none =>
        if ro.groups fc.pattern < 1
        then some ("Version pattern " ++ apos ++ fc.pattern ++ apos
            ++ " must have at least one capture group")
        else Option.none

/-- `_validate_jira_configs(config)` (lines 158-174). -/
def _validate_jira_configs (config : ConfigurationSchema) : List String :=
  match config.jira with
  | some j =>
    if j.project_key = "" then ["Jira configuration requires a project_key"]
    else []
  | Option.none => []

/-- `_validate_github_configs(config)` (lines 177-191): nothing to
validate at the moment. -/
def _validate_github_configs (_config : ConfigurationSchema) : List String := []

/-- `validate_config(config)` (`config/validator.py` lines 27-62) on
an already-constructed schema: aggregate the four error lists and
return `(len(errors) == 0, errors)`. -/
def validate_config (ro : RegexOracle) (config : ConfigurationSchema) :
    Bool × List String :=
  let errors :=
    _validate_branch_configs ro config
    ++ (match config.version with
        | some _ => _validate_version_configs ro config
        | Option.none => [])
    ++ (match config.jira with
        | some j => if j.enabled then _validate_jira_configs config else []
        | Option.none => [])
    ++ (match config.github with
        | some g => if g.enabled then _validate_github_configs config else []
        | Option.none => [])
  (errors.isEmpty, errors)

/-- C8: a gitflow schema whose `branches` mapping holds only the key
`"feature"` fails semantic validation (`is_valid = false`) and the
error list contains three pairwise-distinct strings, one for each of
the missing required branch types `bugfix`, `release` and `hotfix`. -/
theorem C8_gitflow_missing_branches (ro : RegexOracle)
    (c : ConfigurationSchema)
    (hstrat : c.branching_strategy = BranchingStrategy.gitflow)
    (hkeys : c.branches.map Prod.fst = ["feature"]) :
    (validate_config ro c).1 = false ∧
    gitflowRequiresMsg "bugfix" ∈ (validate_config ro c).2 ∧
    gitflowRequiresMsg "release" ∈ (validate_config ro c).2 ∧
    gitflowRequiresMsg "hotfix" ∈ (validate_config ro c).2 ∧
    gitflowRequiresMsg "bugfix" ≠ gitflowRequiresMsg "release" ∧
    gitflowRequiresMsg "bugfix" ≠ gitflowRequiresMsg "hotfix" ∧
    gitflowRequiresMsg "release" ≠ gitflowRequiresMsg "hotfix" := by
  have hb : ∃ bc, c.branches = [("feature", bc)] := by
    cases hbr : c.branches with
    | nil => rw [hbr] at hkeys; simp at hkeys
    | cons p rest =>
      obtain ⟨k, bc⟩ := p
      cases rest with
      | cons q t => rw [hbr] at hkeys; simp at hkeys
      | nil =>
        rw [hbr] at hkeys
        simp only [List.map_cons, List.map_nil] at hkeys
        have h1 : k = "feature" := by simpa using hkeys
        exact ⟨bc, by rw [h1]⟩
  obtain ⟨bc, hb⟩ := hb
  have hreq : requiredBranchErrors "GitFlow"
      ["feature", "bugfix", "release", "hotfix"] [("feature", bc)]
      = [gitflowRequiresMsg "bugfix", gitflowRequiresMsg "release",
         gitflowRequiresMsg "hotfix"] := rfl
  have hin : ∀ m, m ∈ requiredBranchErrors "GitFlow"
      ["feature", "bugfix", "release", "hotfix"] c.branches →
      m ∈ (validate_config ro c).2 := by
    intro m hm
    dsimp only [validate_config]
    apply List.mem_append_left
    apply List.mem_append_left
    apply List.mem_append_left
    unfold _validate_branch_configs
    rw [hstrat]
    simp only [BranchingStrategy.value, if_true]
    apply List.mem_append_left
    apply List.mem_append_left
    apply List.mem_append_left
    exact List.mem_append_right _ hm
  have hm1 : gitflowRequiresMsg "bugfix" ∈ (validate_config ro c).2 :=
    hin _ (by rw [hb, hreq]; simp)
  have hm2 : gitflowRequiresMsg "release" ∈ (validate_config ro c).2 :=
    hin _ (by rw [hb, hreq]; simp)
  have hm3 : gitflowRequiresMsg "hotfix" ∈ (validate_config ro c).2 :=
    hin _ (by rw [hb, hreq]; simp)
  have hfalse : (validate_config ro c).1 = false := by
    have h1 : (validate_config ro c).1 = (validate_config ro c).2.isEmpty := rfl
    cases hE : (validate_config ro c).2 with
    | nil => rw [hE] at hm1; simp at hm1
    | cons a t => rw [h1, hE]; rfl
  refine ⟨hfalse, hm1, hm2, hm3, ?_, ?_, ?_⟩ <;> decide

/-- The regex oracle under which every pattern compiles with one
capture group. -/
def ro0 : RegexOracle :=
  { compileError := fun _ => Option.none, groups := fun _ => 1 }

/-- A gitflow schema whose branches mapping holds only `feature`. -/
def featureOnlyGitflow : ConfigurationSchema :=
  { branching_strategy := BranchingStrategy.gitflow,
    main_branch := "main",
    develop_branch := some "develop",
    branches := [("feature", { pattern := "x", base := "develop" })] }

/-- Witness for C8 at a concrete schema and oracle. -/
theorem C8_witness :
    (validate_config ro0 featureOnlyGitflow).1 = false ∧
    gitflowRequiresMsg "bugfix" ∈ (validate_config ro0 featureOnlyGitflow).2 ∧
    gitflowRequiresMsg "release" ∈ (validate_config ro0 featureOnlyGitflow).2 ∧
    gitflowRequiresMsg "hotfix" ∈ (validate_config ro0 featureOnlyGitflow).2 := by
  have h := C8_gitflow_missing_branches ro0 featureOnlyGitflow rfl rfl
  exact ⟨h.1, h.2.1, h.2.2.1, h.2.2.2.1⟩

/-!
### Schema construction (`config/schema.py` model validators)

Pydantic construction runs the field validators
(`BranchConfig.validate_pattern`, `VersionFileConfig.validate_pattern`)
and then the two `mode='after'` model validators; any failure
raises. -/

/-- `BranchConfig.validate_pattern` (field validator). -/
def branchConfig_validate_pattern (ro : RegexOracle) (bc : BranchConfig) :
    Except String Unit :=
  match ro.compileError bc.pattern with
  | some e => Except.error ("Invalid regex pattern: " ++ e)
  | Option.none => Except.ok ()

/-- `VersionFileConfig.validate_pattern` (field validator). -/
def versionFileConfig_validate_pattern (ro : RegexOracle)
    (vf : VersionFileConfig) : Except String Unit :=
  match ro.compileError vf.pattern with
  | some e => Except.error ("Invalid regex pattern: " ++ e)
  | Option.none =>
    if ro.groups vf.pattern < 1
    then Except.error "Pattern must contain at least one capture group for the version"
    else Except.ok ()

/-- `ConfigurationSchema.validate_branch_configs` (model validator,
`schema.py` lines 247-259): for gitflow a falsy `develop_branch`
raises; then, for every strategy, a missing `feature` branch
configuration raises.  No other branch type is checked here. -/
def validate_branch_configs (c : ConfigurationSchema) : Except String Unit :=
  if c.branching_strategy = BranchingStrategy.gitflow
      ∧ strTruthy c.develop_branch = false
  then Except.error "develop_branch must be set for GitFlow"
  else if hasKeyB c.branches "feature" = false
  then Except.error ("Branch configuration for " ++ apos ++ "feature" ++ apos
      ++ " is required")
  else Except.ok ()

/-- `ConfigurationSchema.validate_version_config` (model validator,
lines 261-269). -/
def validate_version_config (c : ConfigurationSchema) : Except String Unit :=
  match c.version with
  | some v =>
    if v.files = []
    then Except.error "At least one version file must be specified"
    else Except.ok ()
  | Option.none => Except.ok ()

/-- Run a field validator over every element, stopping at the first
raised error. -/
def validateAll {α : Type} (f : α → Except String Unit) :
    List α → Except String Unit
  | [] => Except.ok ()
  | a :: t =>
    match f a with
    | Except.error e => Except.error e
    | Except.ok _ => validateAll f t

/-- `ConfigurationSchema(**fields)`: run the field validators over
every branch and version-file pattern, then the two model validators;
return the constructed schema or the first raised error. -/
def mkConfigurationSchema (ro : RegexOracle) (c : ConfigurationSchema) :
    Except String ConfigurationSchema :=
  match validateAll (fun bc => branchConfig_validate_pattern ro bc.2) c.branches with
  | Except.error e => Except.error e
  | Except.ok _ =>
    match (match c.version with
           | some v => validateAll (versionFileConfig_validate_pattern ro) v.files
           | Option.none => Except.ok ()) with
    | Except.error e => Except.error e
    | Except.ok _ =>
      match validate_branch_configs c with
      | Except.error e => Except.error e
      | Except.ok _ =>
        match validate_version_config c with
        | Except.error e => Except.error e
        | Except.ok _ => Except.ok c

/-- A validator that accepts every element succeeds on the list. -/
theorem validateAll_ok_of_all {α : Type} (f : α → Except String Unit)
    (l : List α) (h : ∀ x ∈ l, f x = Except.ok ()) :
    validateAll f l = Except.ok () := by
  induction l with
  | nil => rfl
  | cons a t ih =>
    unfold validateAll
    rw [h a (List.mem_cons_self _ _)]
    exact ih (fun x hx => h x (List.mem_cons_of_mem _ hx))

/-- A successful construction passed the `validate_branch_configs`
model validator. -/
theorem mk_ok_branch_stage (ro : RegexOracle) (c s : ConfigurationSchema)
    (h : mkConfigurationSchema ro c = Except.ok s) :
    validate_branch_configs c = Except.ok () := by
  unfold mkConfigurationSchema at h
  cases h1 : validateAll (fun bc => branchConfig_validate_pattern ro bc.2)
      c.branches with
  | error e => rw [h1] at h; simp at h
  | ok u =>
    rw [h1] at h
    cases h2 : (match c.version with
                | some v => validateAll (versionFileConfig_validate_pattern ro) v.files
                | Option.none => Except.ok ()) with
    | error e => rw [h2] at h; simp at h
    | ok u2 =>
      rw [h2] at h
      cases h3 : validate_branch_configs c with
      | error e => rw [h3] at h; simp at h
      | ok u3 => cases u3; rfl

/-- C10: every successfully constructed `ConfigurationSchema` has a
`feature` entry in `branches`; construction fails whenever `feature`
is absent, for every branching strategy; and no other branch type is
required at construction time — a gitflow schema with a truthy
`develop_branch`, compiling branch patterns, no version section and
only a `feature` branch constructs successfully. -/
theorem C10_feature_required_at_construction (ro : RegexOracle)
    (c : ConfigurationSchema) :
    (∀ s, mkConfigurationSchema ro c = Except.ok s →
      hasKeyB c.branches "feature" = true) ∧
    (hasKeyB c.branches "feature" = false →
      ∀ s, mkConfigurationSchema ro c ≠ Except.ok s) ∧
    (c.branching_strategy = BranchingStrategy.gitflow →
      strTruthy c.develop_branch = true →
      hasKeyB c.branches "feature" = true →
      (∀ bc ∈ c.branches, ro.compileError bc.2.pattern = Option.none) →
      c.version = Option.none →
      mkConfigurationSchema ro c = Except.ok c) := by
  have hfail : hasKeyB c.branches "feature" = false →
      ∀ s, mkConfigurationSchema ro c ≠ Except.ok s := by
    intro hfeat s hok
    have hstage := mk_ok_branch_stage ro c s hok
    unfold validate_branch_configs at hstage
    by_cases hc : c.branching_strategy = BranchingStrategy.gitflow
        ∧ strTruthy c.develop_branch = false
    · rw [if_pos hc] at hstage; simp at hstage
    · rw [if_neg hc, if_pos hfeat] at hstage; simp at hstage
  refine ⟨?_, hfail, ?_⟩
  · intro s hok
    by_cases hfeat : hasKeyB c.branches "feature" = true
    · exact hfeat
    · exact absurd hok (hfail (by simpa using hfeat) s)
  · intro h1 h2 h3 h4 h5
    have s1 : validateAll (fun bc => branchConfig_validate_pattern ro bc.2)
        c.branches = Except.ok () :=
      validateAll_ok_of_all _ _ (fun bc hbc => by
        unfold branchConfig_validate_pattern
        rw [h4 bc hbc])
    have s3 : validate_branch_configs c = Except.ok () := by
      unfold validate_branch_configs
      rw [if_neg (by rw [h2]; simp), if_neg (by rw [h3]; simp)]
    have s4 : validate_version_config c = Except.ok () := by
      unfold validate_version_config
      rw [h5]
    unfold mkConfigurationSchema
    rw [s1, h5, s3, s4]

/-- Witness for C10: the concrete gitflow schema with only a
`feature` branch constructs successfully. -/
theorem C10_witness :
    mkConfigurationSchema ro0 featureOnlyGitflow
      = Except.ok featureOnlyGitflow :=
  (C10_feature_required_at_construction ro0 featureOnlyGitflow).2.2
    rfl rfl rfl (fun _ _ => rfl) rfl

/-!
### Loader (`config/loader.py`, `load_config`) and user-override
writer (`config/hierarchy.py`, `create_user_config`)

Files are a mapping from path strings to contents. -/

/-- File contents by path. -/
abbrev FileMap := List (String × String)

/-- `path.exists()` / reading the file at `path`. -/
def readFile (fs : FileMap) (path : String) : Option String :=
  match fs with
  | [] => Option.none
  | (p, content) :: rest =>
    if p = path then some content else readFile rest path

/-- `open(path, "w")` followed by writing `content`. -/
def writeFile (fs : FileMap) (path content : String) : FileMap :=
  match fs with
  | [] => [(path, content)]
  | (p, c) :: rest =>
    if p = path then (p, content) :: rest
    else (p, c) :: writeFile rest path content

/-- The errors `load_config` can raise: `FileNotFoundError` and
`ValueError` (invalid configuration). -/
inductive LoadError where
  | fileNotFound (msg : String)
  | invalidConfiguration (msg : String)
deriving DecidableEq

/-- `ProjectConfig` (`config/schema.py` lines 272-283). -/
structure ProjectConfig where
  config : ConfigurationSchema
  path : Option String
  is_default : Bool
deriving DecidableEq

/-- `load_config(directory, config_path, ...)` (`config/loader.py`
lines 123-223).  `parseYaml` abstracts the YAML parse performed by
`load_yaml_file`, `buildSchema` the `ConfigurationSchema(**dict)`
construction, and `fallback` the hierarchical / simple loading taken
when no (truthy) explicit path is supplied (lines 175-223).  In
explicit-path mode a missing file raises `FileNotFoundError` before
anything is parsed, and on success the returned `ProjectConfig` has
`is_default = False`. -/
def load_config (fs : FileMap)
    (parseYaml : String → Except String Obj)
    (buildSchema : Obj → Except String ConfigurationSchema)
    (fallback : Except LoadError ProjectConfig)
    (config_path : Option String) : Except LoadError ProjectConfig :=
  match config_path with
  | Option.none => fallback
  | some p =>
    if p = "" then fallback
    else
      match readFile fs p with
      | Option.none =>
        Except.error (LoadError.fileNotFound
          ("Configuration file not found: " ++ p))
      | some content =>
        match parseYaml content with
        | Except.error e =>
          Except.error (LoadError.invalidConfiguration
            ("Invalid configuration file: " ++ e))
        | Except.ok d =>
          match buildSchema d with
          | Except.error e =>
            Except.error (LoadError.invalidConfiguration
              ("Invalid configuration: " ++ e))
          | Except.ok cfg =>
            Except.ok { config := cfg, path := some p, is_default := false }

/-- C9: when an explicit configuration path is supplied and the file
does not exist, loading fails with a hard `FileNotFoundError`, and no
default configuration is substituted — no `ProjectConfig` is ever
returned, whatever the fallback loaders would have produced. -/
theorem C9_explicit_path_missing_is_hard_error (fs : FileMap)
    (parseYaml : String → Except String Obj)
    (buildSchema : Obj → Except String ConfigurationSchema)
    (fallback : Except LoadError ProjectConfig)
    (p : String) (hp : p ≠ "") (hmiss : readFile fs p = Option.none) :
    load_config fs parseYaml buildSchema fallback (some p)
        = Except.error (LoadError.fileNotFound
            ("Configuration file not found: " ++ p)) ∧
      ∀ pc, load_config fs parseYaml buildSchema fallback (some p)
        ≠ Except.ok pc := by
  have h : load_config fs parseYaml buildSchema fallback (some p)
      = Except.error (LoadError.fileNotFound
          ("Configuration file not found: " ++ p)) := by
    simp only [load_config]
    rw [if_neg hp, hmiss]
  exact ⟨h, fun pc hq => by rw [h] at hq; exact Except.noConfusion hq⟩

/-- Witness for C9: an empty file system, an explicit path, and a
fallback that would happily return a default configuration. -/
theorem C9_witness :
    load_config [] (fun _ => Except.error "parse")
        (fun _ => Except.error "schema")
        (Except.ok { config := featureOnlyGitflow, path := Option.none,
                     is_default := true })
        (some "/work/.practices.yaml")
      = Except.error (LoadError.fileNotFound
          ("Configuration file not found: " ++ "/work/.practices.yaml")) :=
  (C9_explicit_path_missing_is_hard_error [] _ _ _ "/work/.practices.yaml"
    (by decide) rfl).1

/-- Outcome of `yaml.dump(data, f)` on an already-opened file: success
with the full serialized text, or an exception raised after emitting
a (possibly empty) partial output. -/
inductive DumpOutcome where
  | ok (text : String)
  | raised (written : String)

/-- `create_user_config(directory, overrides)` (`config/hierarchy.py`
lines 176-216): load the existing user config if present (a missing
or unreadable file leaves `existing = {}`); merge the overrides on
top key by key — lines 202-208 inline exactly the per-key algorithm
of `_merge_dicts`, so the merged value is `mergeDicts existing
overrides`; then `with open(user_config_path, "w") as f:
yaml.dump(existing, f, ...)`.  Opening with mode `"w"` truncates the
target *before* `yaml.dump` runs, so the model sets the file to `""`
and then to whatever the dump emitted.  Returns the resulting file
system and whether the dump succeeded. -/
def create_user_config (fs : FileMap) (user_config_path : String)
    (overrides : Obj)
    (parseYaml : String → Option Obj)
    (dump : Obj → DumpOutcome) : FileMap × Bool :=
  let existing : Obj :=
    match readFile fs user_config_path with
    | some content =>
      match parseYaml content with
      | some d => d
      | Option.none => []
    | Option.none => []
  let merged := mergeDicts existing overrides
  let fs1 := writeFile fs user_config_path ""
  match dump merged with
  | DumpOutcome.ok text => (writeFile fs1 user_config_path text, true)
  | DumpOutcome.raised written => (writeFile fs1 user_config_path written, false)

/-- C3: the claim fails on the code — there is no
write-to-temp-then-replace; `create_user_config` truncates the target
in place before serializing.  On an existing user config whose dump
raises before emitting anything, the previous contents are destroyed:
the file ends up empty instead of holding `"jira:\n  enabled: true\n"`. -/
theorem C3_writer_truncates_on_failure :
    readFile [("/proj/.practices.user.yaml", "jira:\n  enabled: true\n")]
        "/proj/.practices.user.yaml" = some "jira:\n  enabled: true\n" ∧
    (create_user_config
        [("/proj/.practices.user.yaml", "jira:\n  enabled: true\n")]
        "/proj/.practices.user.yaml" [] (fun _ => some [])
        (fun _ => DumpOutcome.raised "")).2 = false ∧
    readFile (create_user_config
        [("/proj/.practices.user.yaml", "jira:\n  enabled: true\n")]
        "/proj/.practices.user.yaml" [] (fun _ => some [])
        (fun _ => DumpOutcome.raised "")).1
      "/proj/.practices.user.yaml" = some "" :=
  ⟨rfl, rfl, rfl⟩

end Practices
